import Mathlib

/-!
Shallow embedding of the go-arena-memory repository.

Sources embedded:
- src/mem/hashing.go : HashBuilder, HashElementId, HashingOptions and the
  convenience entry points HashString / HashNumber / HashManyNumbers.
- src/unnamed/part_000 (package mem) : MemArray and its operations
  NewMemArray, MemArray_Get, MArray_GetValue, MArray_Add, MArray_Set,
  MArray_RemoveSwapback.
- src/arena : only arena_test.go is present in the sources, so the Arena
  itself is modelled from the spec (see the Arena section below).

Conventions:
- Go uint32 values are modelled as Nat with arithmetic taken modulo
  U32 = 2^32 exactly where the machine type wraps.
- Go int32 values (lengths, capacities, indices) are modelled as Int; no
  operation in scope approaches the int32 range, so wrap-around of int32
  itself is not modelled.
- Go byte slices are modelled as List Nat (each entry a byte value); the
  list models the full backing array of the slice, so its length is both
  the slice length and its capacity.
- A Go runtime panic (out-of-range index or slice bound) is modelled by
  an Option-valued result being none.
-/

namespace ArenaMem

/-- Modulus of Go's uint32 arithmetic. -/
def U32 : Nat := 4294967296

/-! ## Hashing (src/mem/hashing.go) -/

structure HashElementId where
  Id : Nat
  Offset : Nat
  BaseId : Nat
  StringId : String
deriving DecidableEq, Repr

structure HashingOptions where
  StringIdJoiner : String → String → String

/-- Go: DefaultHashingOptions joins by plain concatenation. -/
def DefaultHashingOptions : HashingOptions :=
  ⟨fun a b => a ++ b⟩

def HashingOptionsWithJoiner (joiner : String → String → String) : HashingOptions :=
  ⟨joiner⟩

/-- Go: type HashingOption func(*HashingOptions); modelled as a pure update. -/
def HashingOption : Type := HashingOptions → HashingOptions

/-- Go call sites copy DefaultHashingOptions and apply each option in order. -/
def resolveOptions (options : List HashingOption) : HashingOptions :=
  options.foldl (fun opts option => option opts) DefaultHashingOptions

/-- An option that replaces the joiner, as built in the Go tests. -/
def withJoinerOption (j : String → String → String) : HashingOption :=
  fun opts => { opts with StringIdJoiner := j }

structure HashBuilder where
  hash : Nat
  stringId : String
deriving DecidableEq, Repr

/-- Go: NewHashBuilder(seed) returns a builder with hash = seed, stringId = "". -/
def NewHashBuilder (seed : Nat) : HashBuilder :=
  ⟨seed % U32, ""⟩

/-- Go: AddByte folds one byte into the accumulator:
hash += data; hash += hash shifted left by 10; hash ^= hash shifted right by 6. -/
def HashBuilder.AddByte (h : HashBuilder) (data : Nat) : HashBuilder :=
  let h1 := (h.hash + data) % U32
  let h2 := (h1 + ((h1 <<< 10) % U32)) % U32
  let h3 := h2 ^^^ (h2 >>> 6)
  { h with hash := h3 }

/-- UTF-8 encoding of one character, the byte sequence Go iterates for a
string converted to a byte slice. -/
def utf8Bytes (c : Char) : List Nat :=
  let n := c.toNat
  if n < 128 then [n]
  else if n < 2048 then [192 + n / 64, 128 + n % 64]
  else if n < 65536 then [224 + n / 4096, 128 + n / 64 % 64, 128 + n % 64]
  else [240 + n / 262144, 128 + n / 4096 % 64, 128 + n / 64 % 64, 128 + n % 64]

/-- Byte sequence of a Go string (its UTF-8 encoding). -/
def strBytes (s : String) : List Nat :=
  s.data.flatMap utf8Bytes

/-- Go: AddBytes(data, length) iterates over data sliced to the first
length bytes; the slicing itself panics (modelled as none) when length is
negative or exceeds the slice capacity. -/
def HashBuilder.AddBytes (h : HashBuilder) (data : List Nat) (length : Int) :
    Option HashBuilder :=
  if 0 ≤ length ∧ length ≤ (data.length : Int) then
    some ((data.take length.toNat).foldl HashBuilder.AddByte h)
  else
    none

/-- Go: AddString folds each UTF-8 byte of the key through AddByte, then
applies the configured joiner to the accumulated stringId and the key. -/
def HashBuilder.AddString (h : HashBuilder) (key : String)
    (options : List HashingOption) : HashBuilder :=
  let opts := resolveOptions options
  let h1 := (strBytes key).foldl HashBuilder.AddByte h
  { h1 with stringId := opts.StringIdJoiner h1.stringId key }

/-- Go: AddNumber folds number + 48 through the same mixing step as
AddByte, then joins the decimal form of the number onto stringId. -/
def HashBuilder.AddNumber (h : HashBuilder) (number : Nat)
    (options : List HashingOption) : HashBuilder :=
  let opts := resolveOptions options
  let h1 := (h.hash + ((number + 48) % U32)) % U32
  let h2 := (h1 + ((h1 <<< 10) % U32)) % U32
  let h3 := h2 ^^^ (h2 >>> 6)
  { hash := h3, stringId := opts.StringIdJoiner h.stringId (toString number) }

/-- Go: AddNumbers resolves the options (unused copy, as in the source)
and then calls AddNumber for each element, passing the original options. -/
def HashBuilder.AddNumbers (h : HashBuilder) (numbers : List Nat)
    (options : List HashingOption) : HashBuilder :=
  let _opts := resolveOptions options
  numbers.foldl (fun acc number => acc.AddNumber number options) h

/-- Go: build computes a final avalanche mix into a local variable that it
then discards, and returns hash + 1 (the raw accumulator) as Id and
BaseId, Offset 0, and the accumulated stringId. -/
def HashBuilder.build (h : HashBuilder) : HashElementId :=
  let hash0 := h.hash
  let hash1 := (hash0 + ((hash0 <<< 3) % U32)) % U32
  let hash2 := hash1 ^^^ (hash1 >>> 11)
  let _hash3 := (hash2 + ((hash2 <<< 15) % U32)) % U32
  ⟨(h.hash + 1) % U32, 0, (h.hash + 1) % U32, h.stringId⟩

def HashString (key : String) (seed : Nat) (options : List HashingOption) :
    HashElementId :=
  ((NewHashBuilder seed).AddString key options).build

def HashNumber (number : Nat) (seed : Nat) (options : List HashingOption) :
    HashElementId :=
  ((NewHashBuilder seed).AddNumber number options).build

def HashManyNumbers (seed : Nat) (numbers : List Nat)
    (options : List HashingOption) : HashElementId :=
  ((NewHashBuilder seed).AddNumbers numbers options).build

/-! ### Call sequences against a builder -/

/-- One public mutating call on a HashBuilder. -/
inductive HashOp where
  | addByte (data : Nat)
  | addBytes (data : List Nat) (length : Int)
  | addString (key : String) (options : List HashingOption)
  | addNumber (number : Nat) (options : List HashingOption)
  | addNumbers (numbers : List Nat) (options : List HashingOption)

def runHashOp (h : HashBuilder) : HashOp → Option HashBuilder
  | .addByte data => some (h.AddByte data)
  | .addBytes data length => h.AddBytes data length
  | .addString key options => some (h.AddString key options)
  | .addNumber number options => some (h.AddNumber number options)
  | .addNumbers numbers options => some (h.AddNumbers numbers options)

def runHashOps (h : HashBuilder) : List HashOp → Option HashBuilder
  | [] => some h
  | op :: rest =>
    match runHashOp h op with
    | none => none
    | some h1 => runHashOps h1 rest

/-- True when the call passes no options, so the default joiner applies. -/
def opUsesDefault : HashOp → Bool
  | .addByte _ => true
  | .addBytes _ _ => true
  | .addString _ options => options.isEmpty
  | .addNumber _ options => options.isEmpty
  | .addNumbers _ options => options.isEmpty

/-- Concatenation of a list of strings in order. -/
def strConcat : List String → String
  | [] => ""
  | s :: rest => s ++ strConcat rest

/-- Text a single call contributes to the tag under the default joiner. -/
def opTagText : HashOp → String
  | .addByte _ => ""
  | .addBytes _ _ => ""
  | .addString key _ => key
  | .addNumber number _ => toString number
  | .addNumbers numbers _ => strConcat (numbers.map (fun n => toString n))

/-- Tag accumulated by a call sequence under the default joiner. -/
def tagTrace (ops : List HashOp) : String :=
  strConcat (ops.map opTagText)

/-! ## MemArray (src/unnamed/part_000, package mem) -/

structure MemArray (T : Type) where
  Capacity : Int
  Length : Int
  InternalArray : List T
deriving DecidableEq, Repr

/-- Go: NewMemArray makes a backing slice of the given capacity filled
with zero values; make itself panics on a negative capacity. -/
def NewMemArray (T : Type) [Inhabited T] (capacity : Int) :
    Option (MemArray T) :=
  if capacity < 0 then none
  else some ⟨capacity, 0, List.replicate capacity.toNat default⟩

/-- Go: rangeCheck(index, length) is index < length && index >= 0. -/
def rangeCheck (index length : Int) : Bool :=
  decide (index < length) && decide (index ≥ 0)

/-- Go: MemArray_Get range-checks the index against len(InternalArray),
the raw storage extent, and returns a pointer to the element or nil. -/
def MemArray_Get {T : Type} (array : MemArray T) (index : Int) : Option T :=
  if rangeCheck index ((array.InternalArray.length : Int)) then
    array.InternalArray.get? index.toNat
  else
    none

/-- Go: MArray_GetValue range-checks against len(InternalArray) and
returns the element, or the zero value of T when out of range. -/
def MArray_GetValue {T : Type} [Inhabited T] (array : MemArray T)
    (index : Int) : T :=
  if rangeCheck index ((array.InternalArray.length : Int)) then
    array.InternalArray.getD index.toNat default
  else
    default

/-- Go: MArray_Add returns nil when Length equals Capacity - 1 (an
equality test, not an inequality); otherwise it writes the item at index
Length, increments Length, and returns a pointer to the stored slot
(modelled as the slot's index). The write carries Go's runtime bounds
check on the backing slice: when Length is outside the raw storage the
program panics, modelled as none. -/
def MArray_Add {T : Type} (array : MemArray T) (item : T) :
    Option (MemArray T × Option Int) :=
  if array.Length = array.Capacity - 1 then
    some (array, none)
  else if 0 ≤ array.Length ∧ array.Length < (array.InternalArray.length : Int) then
    some ({ array with
              InternalArray := array.InternalArray.set array.Length.toNat item,
              Length := array.Length + 1 },
          some array.Length)
  else
    none

/-- Go: MArray_Set returns without writing when the index is outside
the raw storage extent, else overwrites the element; Length unchanged. -/
def MArray_Set {T : Type} (array : MemArray T) (index : Int) (item : T) :
    MemArray T :=
  if index < 0 ∨ index ≥ (array.InternalArray.length : Int) then
    array
  else
    { array with InternalArray := array.InternalArray.set index.toNat item }

/-- Go: MArray_RemoveSwapback range-checks the index against Length;
out of range it returns the zero value and leaves the array unchanged.
In range it decrements Length, reads the removed element at index,
overwrites index with the element at the decremented Length, and returns
the removed element. The two element reads carry Go's runtime bounds
check against the backing slice (none models the panic). -/
def MArray_RemoveSwapback {T : Type} [Inhabited T] (array : MemArray T)
    (index : Int) : Option (T × MemArray T) :=
  if rangeCheck index array.Length then
    let newLength := array.Length - 1
    match array.InternalArray.get? index.toNat,
          array.InternalArray.get? newLength.toNat with
    | some removed, some last =>
        some (removed,
              { array with
                  Length := newLength,
                  InternalArray := array.InternalArray.set index.toNat last })
    | _, _ => none
  else
    some (default, array)

/-! ## Arena

Modelled from the spec: the Arena implementation (package Arena) is not
among the provided sources; only its test file src/arena/arena_test.go is.
Field and method names follow that test file (Capacity, NextAllocation,
ArenaResetOffset, Memory; Allocate, InitializePersistentMemory,
ResetEphemeralMemory); the behavior follows spec sections 4.1 and 8.
Byte offsets are Nat since every offset the spec manipulates is
non-negative. -/

structure Arena where
  Capacity : Nat
  NextAllocation : Nat
  ArenaResetOffset : Nat
  Memory : List Nat
deriving DecidableEq, Repr

/-- Modelled from the spec: Allocate(size) reserves the byte range from
NextAllocation to NextAllocation + size, advancing NextAllocation, and
returns the start offset of the range (the view it aliases); it fails
leaving state unchanged when the range would exceed Capacity. -/
def Arena.Allocate (a : Arena) (size : Nat) : Except String (Arena × Nat) :=
  if a.NextAllocation + size > a.Capacity then
    .error "arena capacity exceeded: cannot allocate required memory"
  else
    .ok ({ a with NextAllocation := a.NextAllocation + size }, a.NextAllocation)

/-- Modelled from the spec: InitializePersistentMemory sets
ArenaResetOffset to the current NextAllocation. -/
def Arena.InitializePersistentMemory (a : Arena) : Arena :=
  { a with ArenaResetOffset := a.NextAllocation }

/-- Modelled from the spec: ResetEphemeralMemory sets NextAllocation to
ArenaResetOffset and touches nothing else. -/
def Arena.ResetEphemeralMemory (a : Arena) : Arena :=
  { a with NextAllocation := a.ArenaResetOffset }

/-- Overwrite of the buffer starting at an offset, one byte at a time:
what a caller does by mutating through the byte view an allocation
returns. -/
def writeAt (mem : List Nat) (offset : Nat) : List Nat → List Nat
  | [] => mem
  | b :: rest => writeAt (mem.set offset b) (offset + 1) rest

/-- One step of a caller's allocate/reset cycle: an allocation whose
returned view is then filled with the given bytes (clipped to the view's
size), or a reset. A failed allocation leaves the arena unchanged. -/
inductive ArenaOp where
  | allocate (size : Nat) (data : List Nat)
  | reset

def arenaStep (a : Arena) : ArenaOp → Arena
  | .allocate size data =>
    match a.Allocate size with
    | .error _ => a
    | .ok (a1, offset) =>
        { a1 with Memory := writeAt a1.Memory offset (data.take size) }
  | .reset => a.ResetEphemeralMemory

def arenaRun (a : Arena) (ops : List ArenaOp) : Arena :=
  ops.foldl arenaStep a

/-! ## Helper lemmas -/

theorem addByte_stringId (h : HashBuilder) (d : Nat) :
    (h.AddByte d).stringId = h.stringId := rfl

theorem foldl_addByte_stringId (bytes : List Nat) (h : HashBuilder) :
    (bytes.foldl HashBuilder.AddByte h).stringId = h.stringId := by
  induction bytes generalizing h with
  | nil => rfl
  | cons b rest ih => simpa [List.foldl_cons, addByte_stringId] using ih (h.AddByte b)

/-! ## Claims -/

/-- C6. Determinism / no hidden state: a HashBuilder's behavior is a
function of its two fields alone. Any two builders agreeing on the
accumulator and the tag (in particular two builders constructed from the
identical seed), fed the identical sequence of AddByte / AddBytes /
AddString / AddNumber / AddNumbers calls with identical joiners, produce
identical run results, and identical built Id, BaseId and StringId. -/
theorem hashBuilder_no_hidden_state (b1 b2 : HashBuilder)
    (hh : b1.hash = b2.hash) (hs : b1.stringId = b2.stringId)
    (ops : List HashOp) :
    runHashOps b1 ops = runHashOps b2 ops ∧
    (runHashOps b1 ops).map HashBuilder.build =
      (runHashOps b2 ops).map HashBuilder.build := by
  have hb : b1 = b2 := by cases b1; cases b2; simp_all
  subst hb
  exact ⟨rfl, rfl⟩

/-- Witness for C6 at seed 5 and a one-call sequence. -/
theorem hashBuilder_no_hidden_state_witness :
    runHashOps (NewHashBuilder 5) [HashOp.addNumber 7 []] =
      runHashOps (NewHashBuilder 5) [HashOp.addNumber 7 []] ∧
    (runHashOps (NewHashBuilder 5) [HashOp.addNumber 7 []]).map HashBuilder.build =
      (runHashOps (NewHashBuilder 5) [HashOp.addNumber 7 []]).map HashBuilder.build :=
  hashBuilder_no_hidden_state (NewHashBuilder 5) (NewHashBuilder 5) rfl rfl
    [HashOp.addNumber 7 []]

/-- C7. HashManyNumbers(seed, numbers, options) equals building a fresh
builder with that seed, folding AddNumber over the numbers in order with
the same options, and calling build; the resulting HashElementId (Id,
Offset, BaseId, StringId) is identical. -/
theorem hashManyNumbers_eq_addNumber_fold (seed : Nat) (numbers : List Nat)
    (options : List HashingOption) :
    HashManyNumbers seed numbers options =
      (numbers.foldl (fun b n => b.AddNumber n options)
        (NewHashBuilder seed)).build := rfl

/-- C8 (amended). The built Id is the 32-bit accumulator plus one reduced
modulo 2 to the 32; it is nonzero exactly when the accumulator differs
from 2 to the 32 minus 1, a reachable value (for instance the seed
4294967295 with no inputs), so the plus-one does not avoid a zero Id for
every reachable accumulator. -/
theorem build_id_nonzero_iff (h : HashBuilder) (hlt : h.hash < U32) :
    h.build.Id = (h.hash + 1) % U32 ∧ (h.build.Id ≠ 0 ↔ h.hash ≠ U32 - 1) := by
  refine ⟨rfl, ?_⟩
  show (h.hash + 1) % U32 ≠ 0 ↔ h.hash ≠ U32 - 1
  unfold U32 at hlt ⊢
  omega

/-- Witness for C8's amended theorem at the zero builder. -/
theorem build_id_nonzero_iff_witness :
    (NewHashBuilder 0).build.Id = ((NewHashBuilder 0).hash + 1) % U32 ∧
    ((NewHashBuilder 0).build.Id ≠ 0 ↔ (NewHashBuilder 0).hash ≠ U32 - 1) :=
  build_id_nonzero_iff (NewHashBuilder 0) (by decide)

/-- C8 counterexample: the builder seeded with 4294967295 and given no
inputs builds an Id equal to zero, refuting that the Id is never zero. -/
theorem build_id_zero_at_max_seed :
    ((NewHashBuilder 4294967295).build).Id = 0 := rfl

/-- C2 (amended). AddBytes returns without fault whenever the requested
length is between 0 and the slice's extent, and MArray_Add returns
without fault on every well-formed array with capacity at least 1 whose
Length satisfies the invariant 0 ≤ Length ≤ Capacity - 1; outside these
ranges the operations hit Go runtime panics (see the counterexample). -/
theorem hashing_array_ops_no_panic_in_range :
    (∀ (h : HashBuilder) (data : List Nat) (length : Int),
      0 ≤ length → length ≤ (data.length : Int) →
      (h.AddBytes data length).isSome = true) ∧
    (∀ (T : Type) (arr : MemArray T) (item : T),
      (arr.InternalArray.length : Int) = arr.Capacity →
      1 ≤ arr.Capacity → 0 ≤ arr.Length → arr.Length ≤ arr.Capacity - 1 →
      (MArray_Add arr item).isSome = true) := by
  constructor
  · intro h data length h0 h1
    simp only [HashBuilder.AddBytes]
    rw [if_pos ⟨h0, h1⟩]
    rfl
  · intro T arr item hw hcap h0 h1
    simp only [MArray_Add]
    by_cases he : arr.Length = arr.Capacity - 1
    · rw [if_pos he]; rfl
    · rw [if_neg he, if_pos ⟨h0, by omega⟩]; rfl

/-- Witness for C2's amended theorem at concrete inputs. -/
theorem hashing_array_ops_no_panic_in_range_witness :
    (((NewHashBuilder 0).AddBytes [65, 66] 2).isSome = true) ∧
    ((MArray_Add (⟨3, 0, [0, 0, 0]⟩ : MemArray Nat) 5).isSome = true) :=
  ⟨hashing_array_ops_no_panic_in_range.1 (NewHashBuilder 0) [65, 66] 2
      (by decide) (by decide),
   hashing_array_ops_no_panic_in_range.2 Nat ⟨3, 0, [0, 0, 0]⟩ 5
      (by decide) (by decide) (by decide) (by decide)⟩

/-- C2 counterexample: AddBytes with length 1 on an empty byte slice
faults (Go slice-bounds panic) instead of returning, and MArray_Add on
the freshly constructed capacity-0 array faults (out-of-range write,
since the guard tests Length equal to Capacity - 1, which is -1),
refuting that these operations never panic for every input. -/
theorem hashing_array_panic_counterexample :
    HashBuilder.AddBytes (NewHashBuilder 0) [] 1 = none ∧
    NewMemArray Nat 0 = some ⟨0, 0, []⟩ ∧
    MArray_Add (⟨0, 0, []⟩ : MemArray Nat) 0 = none :=
  ⟨rfl, rfl, rfl⟩

theorem rangeCheck_true_iff (index length : Int) :
    rangeCheck index length = true ↔ index < length ∧ 0 ≤ index := by
  simp [rangeCheck, ge_iff_le]

theorem get?_eq_some_getD {α : Type} [Inhabited α] (l : List α) (n : Nat)
    (h : n < l.length) : l.get? n = some (l.getD n default) := by
  rw [List.get?_eq_getElem?, List.getD_eq_getElem?_getD,
    List.getElem?_eq_getElem h]
  rfl

/-- C3 counterexample: on the freshly constructed capacity-5 array, whose
logical Length is 0, index 3 is outside the logical range yet
MemArray_Get returns a result and MArray_Set is not a no-op: both are
bounds-checked against the raw storage, not the logical Length. -/
theorem memArray_get_ignores_length_counterexample :
    NewMemArray Nat 5 = some ⟨5, 0, [0, 0, 0, 0, 0]⟩ ∧
    (⟨5, 0, [0, 0, 0, 0, 0]⟩ : MemArray Nat).Length = 0 ∧
    MemArray_Get (⟨5, 0, [0, 0, 0, 0, 0]⟩ : MemArray Nat) 3 = some 0 ∧
    MArray_Set (⟨5, 0, [0, 0, 0, 0, 0]⟩ : MemArray Nat) 3 9 ≠
      ⟨5, 0, [0, 0, 0, 0, 0]⟩ := by
  refine ⟨rfl, rfl, rfl, ?_⟩
  decide

/-- C3 (amended). Index accesses of MemArray_Get, MArray_GetValue and
MArray_Set are bounds-checked against the raw storage extent, the length
of InternalArray (the capacity for a well-formed array), not the logical
Length: Get returns nil and GetValue returns the zero value exactly
outside the raw extent, Set is a silent no-op exactly outside the raw
extent, and inside it Get returns a result even above the logical
Length. -/
theorem memArray_access_raw_bounds (T : Type) [Inhabited T]
    (arr : MemArray T) (index : Int) (item : T) :
    ((index < 0 ∨ (arr.InternalArray.length : Int) ≤ index) →
      MemArray_Get arr index = none ∧
      MArray_GetValue arr index = default ∧
      MArray_Set arr index item = arr) ∧
    ((0 ≤ index ∧ index < (arr.InternalArray.length : Int)) →
      (MemArray_Get arr index).isSome = true) := by
  constructor
  · intro hout
    have hR : rangeCheck index ((arr.InternalArray.length : Int)) = false := by
      rw [Bool.eq_false_iff, Ne, rangeCheck_true_iff]
      omega
    refine ⟨?_, ?_, ?_⟩
    · simp [MemArray_Get, hR]
    · simp [MArray_GetValue, hR]
    · simp only [MArray_Set]
      rw [if_pos (by omega)]
  · intro hin
    have hR : rangeCheck index ((arr.InternalArray.length : Int)) = true := by
      rw [rangeCheck_true_iff]; omega
    have hlt : index.toNat < arr.InternalArray.length := by omega
    simp [MemArray_Get, hR, List.getElem?_eq_getElem hlt]

/-- Witness for C3's amended theorem on the fresh capacity-5 array at an
out-of-range index and an in-range one. -/
theorem memArray_access_raw_bounds_witness :
    (MemArray_Get (⟨5, 0, [0, 0, 0, 0, 0]⟩ : MemArray Nat) 7 = none ∧
     MArray_GetValue (⟨5, 0, [0, 0, 0, 0, 0]⟩ : MemArray Nat) 7 = default ∧
     MArray_Set (⟨5, 0, [0, 0, 0, 0, 0]⟩ : MemArray Nat) 7 9 =
       ⟨5, 0, [0, 0, 0, 0, 0]⟩) ∧
    (MemArray_Get (⟨5, 0, [0, 0, 0, 0, 0]⟩ : MemArray Nat) 3).isSome = true :=
  ⟨(memArray_access_raw_bounds Nat ⟨5, 0, [0, 0, 0, 0, 0]⟩ 7 9).1 (by decide),
   (memArray_access_raw_bounds Nat ⟨5, 0, [0, 0, 0, 0, 0]⟩ 3 9).2 (by decide)⟩

/-- C4 counterexample: the freshly constructed capacity-0 array has
Length 0, which is at least Capacity - 1 = -1, yet MArray_Add faults
(out-of-range write, modelled none) instead of returning no handle with
the array unchanged: the guard is the equality test Length = Capacity - 1
and does not cover Length above it. -/
theorem marray_add_capacity0_counterexample :
    (⟨0, 0, []⟩ : MemArray Nat).Capacity - 1 ≤
      (⟨0, 0, []⟩ : MemArray Nat).Length ∧
    MArray_Add (⟨0, 0, []⟩ : MemArray Nat) 7 = none ∧
    MArray_Add (⟨0, 0, []⟩ : MemArray Nat) 7 ≠
      some (⟨0, 0, []⟩, none) := by
  refine ⟨by decide, rfl, by decide⟩

/-- C4 (amended). On a well-formed array (raw storage length equal to
Capacity) with non-negative Length: when Length is below Capacity - 1,
MArray_Add stores the item at position Length, increments Length by one,
and returns a handle to the stored element; when Length equals
Capacity - 1 exactly (the guard is that equality, the one trailing slot
stays reserved), it returns no handle and leaves the array unchanged.
For Length beyond Capacity - 1 the append faults instead (see the
counterexample). -/
theorem marray_add_spec (T : Type) (arr : MemArray T) (item : T)
    (hw : (arr.InternalArray.length : Int) = arr.Capacity)
    (h0 : 0 ≤ arr.Length) :
    (arr.Length < arr.Capacity - 1 →
      MArray_Add arr item =
        some ({ arr with
                  InternalArray := arr.InternalArray.set arr.Length.toNat item,
                  Length := arr.Length + 1 },
              some arr.Length)) ∧
    (arr.Length = arr.Capacity - 1 →
      MArray_Add arr item = some (arr, none)) := by
  constructor
  · intro hlt
    simp only [MArray_Add]
    rw [if_neg (by omega), if_pos ⟨h0, by omega⟩]
  · intro he
    simp only [MArray_Add]
    rw [if_pos he]

/-- Witness for C4's amended theorem on a fresh capacity-3 array. -/
theorem marray_add_spec_witness :
    MArray_Add (⟨3, 0, [0, 0, 0]⟩ : MemArray Nat) 5 =
      some ({ (⟨3, 0, [0, 0, 0]⟩ : MemArray Nat) with
                InternalArray := [0, 0, 0].set (Int.toNat 0) 5,
                Length := 0 + 1 },
            some 0) :=
  (marray_add_spec Nat ⟨3, 0, [0, 0, 0]⟩ 5 (by decide) (by decide)).1 (by decide)

/-- C5. On any array whose logical Length does not exceed its raw
storage (true of every constructed array), MArray_RemoveSwapback at an
index inside the logical range returns the element that was at that
index, overwrites the index with the element that was at position
Length - 1, and decrements Length by one; at any index outside the
logical range it returns the zero value and leaves the array unchanged. -/
theorem marray_removeSwapback_spec (T : Type) [Inhabited T]
    (arr : MemArray T) (index : Int)
    (hw : arr.Length ≤ (arr.InternalArray.length : Int)) :
    ((0 ≤ index ∧ index < arr.Length) →
      MArray_RemoveSwapback arr index =
        some (arr.InternalArray.getD index.toNat default,
              { arr with
                  Length := arr.Length - 1,
                  InternalArray := arr.InternalArray.set index.toNat
                    (arr.InternalArray.getD (arr.Length - 1).toNat default) })) ∧
    ((index < 0 ∨ arr.Length ≤ index) →
      MArray_RemoveSwapback arr index = some (default, arr)) := by
  constructor
  · intro hin
    have hR : rangeCheck index arr.Length = true := by
      rw [rangeCheck_true_iff]; omega
    have hlt1 : index.toNat < arr.InternalArray.length := by omega
    have hlt2 : (arr.Length - 1).toNat < arr.InternalArray.length := by omega
    simp only [MArray_RemoveSwapback, hR, if_true,
      get?_eq_some_getD _ _ hlt1, get?_eq_some_getD _ _ hlt2]
  · intro hout
    have hR : rangeCheck index arr.Length = false := by
      rw [Bool.eq_false_iff, Ne, rangeCheck_true_iff]
      omega
    simp [MArray_RemoveSwapback, hR]

/-- Witness for C5 on a 3-element array: removal at index 0 returns 10,
puts the former last element 30 at index 0, and leaves length 2; removal
at index 5 returns the zero value and changes nothing. -/
theorem marray_removeSwapback_spec_witness :
    MArray_RemoveSwapback (⟨4, 3, [10, 20, 30, 0]⟩ : MemArray Nat) 0 =
      some ([10, 20, 30, 0].getD (Int.toNat 0) default,
            { (⟨4, 3, [10, 20, 30, 0]⟩ : MemArray Nat) with
                Length := 3 - 1,
                InternalArray := [10, 20, 30, 0].set (Int.toNat 0)
                  ([10, 20, 30, 0].getD (Int.toNat (3 - 1)) default) }) ∧
    MArray_RemoveSwapback (⟨4, 3, [10, 20, 30, 0]⟩ : MemArray Nat) 5 =
      some (default, ⟨4, 3, [10, 20, 30, 0]⟩) :=
  ⟨(marray_removeSwapback_spec Nat ⟨4, 3, [10, 20, 30, 0]⟩ 0 (by decide)).1
      (by decide),
   (marray_removeSwapback_spec Nat ⟨4, 3, [10, 20, 30, 0]⟩ 5 (by decide)).2
      (by decide)⟩

/-- C10. Implicit invariant: on a well-formed array of capacity at least
1 satisfying 0 ≤ Length ≤ Capacity - 1, each of MArray_Add, MArray_Set
and MArray_RemoveSwapback completes and preserves
0 ≤ Length ≤ Capacity - 1 (with Capacity unchanged): Add increments
Length only from below Capacity - 1, Set never changes Length, and
RemoveSwapback decrements Length only when it is positive. -/
theorem marray_ops_preserve_invariant (T : Type) [Inhabited T]
    (arr : MemArray T) (item : T) (index : Int)
    (hw : (arr.InternalArray.length : Int) = arr.Capacity)
    (hcap : 1 ≤ arr.Capacity)
    (h0 : 0 ≤ arr.Length) (h1 : arr.Length ≤ arr.Capacity - 1) :
    ((MArray_Add arr item).isSome = true ∧
     ∀ arr2 handle, MArray_Add arr item = some (arr2, handle) →
       arr2.Capacity = arr.Capacity ∧ 0 ≤ arr2.Length ∧
       arr2.Length ≤ arr2.Capacity - 1) ∧
    ((MArray_Set arr index item).Length = arr.Length ∧
     (MArray_Set arr index item).Capacity = arr.Capacity) ∧
    ((MArray_RemoveSwapback arr index).isSome = true ∧
     ∀ removed arr2, MArray_RemoveSwapback arr index = some (removed, arr2) →
       arr2.Capacity = arr.Capacity ∧ 0 ≤ arr2.Length ∧
       arr2.Length ≤ arr2.Capacity - 1) := by
  have hAdd : (MArray_Add arr item).isSome = true ∧
      ∀ arr2 handle, MArray_Add arr item = some (arr2, handle) →
        arr2.Capacity = arr.Capacity ∧ 0 ≤ arr2.Length ∧
        arr2.Length ≤ arr2.Capacity - 1 := by
    by_cases he : arr.Length = arr.Capacity - 1
    · have hval : MArray_Add arr item = some (arr, none) := by
        simp only [MArray_Add]
        rw [if_pos he]
      refine ⟨by rw [hval]; rfl, ?_⟩
      intro arr2 handle heq
      rw [hval] at heq
      simp only [Option.some.injEq, Prod.mk.injEq] at heq
      obtain ⟨h2, -⟩ := heq
      subst h2
      exact ⟨rfl, h0, h1⟩
    · have hval : MArray_Add arr item =
          some ({ arr with
                    InternalArray := arr.InternalArray.set arr.Length.toNat item,
                    Length := arr.Length + 1 },
                some arr.Length) := by
        simp only [MArray_Add]
        rw [if_neg he, if_pos ⟨h0, show arr.Length <
          (arr.InternalArray.length : Int) by omega⟩]
      refine ⟨by rw [hval]; rfl, ?_⟩
      intro arr2 handle heq
      rw [hval] at heq
      simp only [Option.some.injEq, Prod.mk.injEq] at heq
      obtain ⟨h2, -⟩ := heq
      subst h2
      refine ⟨rfl, ?_, ?_⟩
      · show (0 : Int) ≤ arr.Length + 1
        omega
      · show arr.Length + 1 ≤ arr.Capacity - 1
        omega
  have hSet : (MArray_Set arr index item).Length = arr.Length ∧
      (MArray_Set arr index item).Capacity = arr.Capacity := by
    by_cases hc : index < 0 ∨ index ≥ (arr.InternalArray.length : Int)
    · constructor <;> (simp only [MArray_Set]; rw [if_pos hc])
    · constructor <;> (simp only [MArray_Set]; rw [if_neg hc])
  have hRem : (MArray_RemoveSwapback arr index).isSome = true ∧
      ∀ removed arr2, MArray_RemoveSwapback arr index = some (removed, arr2) →
        arr2.Capacity = arr.Capacity ∧ 0 ≤ arr2.Length ∧
        arr2.Length ≤ arr2.Capacity - 1 := by
    by_cases hR : rangeCheck index arr.Length = true
    · have hin := (rangeCheck_true_iff index arr.Length).1 hR
      have hlt1 : index.toNat < arr.InternalArray.length := by omega
      have hlt2 : (arr.Length - 1).toNat < arr.InternalArray.length := by omega
      have hval : MArray_RemoveSwapback arr index =
          some (arr.InternalArray.getD index.toNat default,
                { arr with
                    Length := arr.Length - 1,
                    InternalArray := arr.InternalArray.set index.toNat
                      (arr.InternalArray.getD (arr.Length - 1).toNat default) }) := by
        simp only [MArray_RemoveSwapback, hR, if_true,
          get?_eq_some_getD _ _ hlt1, get?_eq_some_getD _ _ hlt2]
      refine ⟨by rw [hval]; rfl, ?_⟩
      intro removed arr2 heq
      rw [hval] at heq
      simp only [Option.some.injEq, Prod.mk.injEq] at heq
      obtain ⟨-, h2⟩ := heq
      subst h2
      refine ⟨rfl, ?_, ?_⟩
      · show (0 : Int) ≤ arr.Length - 1
        omega
      · show arr.Length - 1 ≤ arr.Capacity - 1
        omega
    · rw [Bool.not_eq_true] at hR
      have hval : MArray_RemoveSwapback arr index = some (default, arr) := by
        simp [MArray_RemoveSwapback, hR]
      refine ⟨by rw [hval]; rfl, ?_⟩
      intro removed arr2 heq
      rw [hval] at heq
      simp only [Option.some.injEq, Prod.mk.injEq] at heq
      obtain ⟨-, h2⟩ := heq
      subst h2
      exact ⟨rfl, h0, h1⟩
  exact ⟨hAdd, hSet, hRem⟩

/-- Witness for C10 on a well-formed array with capacity 3 and length 1. -/
theorem marray_ops_preserve_invariant_witness :
    ((MArray_Add (⟨3, 1, [4, 0, 0]⟩ : MemArray Nat) 5).isSome = true ∧
     ∀ arr2 handle,
       MArray_Add (⟨3, 1, [4, 0, 0]⟩ : MemArray Nat) 5 = some (arr2, handle) →
       arr2.Capacity = (⟨3, 1, [4, 0, 0]⟩ : MemArray Nat).Capacity ∧
       0 ≤ arr2.Length ∧ arr2.Length ≤ arr2.Capacity - 1) ∧
    ((MArray_Set (⟨3, 1, [4, 0, 0]⟩ : MemArray Nat) 0 9).Length =
       (⟨3, 1, [4, 0, 0]⟩ : MemArray Nat).Length ∧
     (MArray_Set (⟨3, 1, [4, 0, 0]⟩ : MemArray Nat) 0 9).Capacity =
       (⟨3, 1, [4, 0, 0]⟩ : MemArray Nat).Capacity) ∧
    ((MArray_RemoveSwapback (⟨3, 1, [4, 0, 0]⟩ : MemArray Nat) 0).isSome = true ∧
     ∀ removed arr2,
       MArray_RemoveSwapback (⟨3, 1, [4, 0, 0]⟩ : MemArray Nat) 0 =
         some (removed, arr2) →
       arr2.Capacity = (⟨3, 1, [4, 0, 0]⟩ : MemArray Nat).Capacity ∧
       0 ≤ arr2.Length ∧ arr2.Length ≤ arr2.Capacity - 1) :=
  marray_ops_preserve_invariant Nat ⟨3, 1, [4, 0, 0]⟩ 5 0 (by decide)
    (by decide) (by decide) (by decide)

theorem addBytes_some_stringId (h h2 : HashBuilder) (data : List Nat)
    (length : Int) (heq : h.AddBytes data length = some h2) :
    h2.stringId = h.stringId := by
  simp only [HashBuilder.AddBytes] at heq
  split at heq
  · obtain rfl := Option.some.inj heq
    exact foldl_addByte_stringId _ _
  · exact absurd heq (by simp)

theorem addString_default_stringId (h : HashBuilder) (key : String) :
    (h.AddString key []).stringId = h.stringId ++ key := by
  simp only [HashBuilder.AddString, resolveOptions, List.foldl_nil,
    DefaultHashingOptions, foldl_addByte_stringId]

theorem addNumber_default_stringId (h : HashBuilder) (n : Nat) :
    (h.AddNumber n []).stringId = h.stringId ++ toString n := rfl

theorem addNumbers_default_stringId (numbers : List Nat) (h : HashBuilder) :
    (h.AddNumbers numbers []).stringId =
      h.stringId ++ strConcat (numbers.map (fun n => toString n)) := by
  induction numbers generalizing h with
  | nil => simp [HashBuilder.AddNumbers, strConcat]
  | cons n rest ih =>
    have step : (h.AddNumbers (n :: rest) []) =
        ((h.AddNumber n []).AddNumbers rest []) := rfl
    rw [step, ih, addNumber_default_stringId]
    simp [List.map_cons, strConcat, String.append_assoc]

theorem runHashOps_default_stringId (ops : List HashOp) (h h2 : HashBuilder)
    (hdef : ∀ op ∈ ops, opUsesDefault op = true)
    (heq : runHashOps h ops = some h2) :
    h2.stringId = h.stringId ++ tagTrace ops := by
  induction ops generalizing h with
  | nil =>
    obtain rfl := Option.some.inj heq
    simp [tagTrace, strConcat]
  | cons op rest ih =>
    have hop := hdef op (List.mem_cons_self op rest)
    have hrest := fun o ho => hdef o (List.mem_cons_of_mem op ho)
    have htag : tagTrace (op :: rest) = opTagText op ++ tagTrace rest := rfl
    cases op with
    | addByte d =>
      have hstep : runHashOps h (HashOp.addByte d :: rest) =
          runHashOps (h.AddByte d) rest := rfl
      rw [hstep] at heq
      rw [ih (h.AddByte d) hrest heq, addByte_stringId, htag]
      simp [opTagText, String.empty_append]
    | addBytes data length =>
      rcases hmid : h.AddBytes data length with - | h1
      · have : runHashOps h (HashOp.addBytes data length :: rest) = none := by
          simp [runHashOps, runHashOp, hmid]
        rw [this] at heq
        exact absurd heq (by simp)
      · have hstep : runHashOps h (HashOp.addBytes data length :: rest) =
            runHashOps h1 rest := by
          simp [runHashOps, runHashOp, hmid]
        rw [hstep] at heq
        rw [ih h1 hrest heq, addBytes_some_stringId h h1 data length hmid, htag]
        simp [opTagText, String.empty_append]
    | addString key options =>
      have hnil : options = [] := by
        simpa [opUsesDefault, List.isEmpty_iff] using hop
      subst hnil
      have hstep : runHashOps h (HashOp.addString key [] :: rest) =
          runHashOps (h.AddString key []) rest := rfl
      rw [hstep] at heq
      rw [ih _ hrest heq, addString_default_stringId, htag]
      simp [opTagText, String.append_assoc]
    | addNumber n options =>
      have hnil : options = [] := by
        simpa [opUsesDefault, List.isEmpty_iff] using hop
      subst hnil
      have hstep : runHashOps h (HashOp.addNumber n [] :: rest) =
          runHashOps (h.AddNumber n []) rest := rfl
      rw [hstep] at heq
      rw [ih _ hrest heq, addNumber_default_stringId, htag]
      simp [opTagText, String.append_assoc]
    | addNumbers numbers options =>
      have hnil : options = [] := by
        simpa [opUsesDefault, List.isEmpty_iff] using hop
      subst hnil
      have hstep : runHashOps h (HashOp.addNumbers numbers [] :: rest) =
          runHashOps (h.AddNumbers numbers []) rest := rfl
      rw [hstep] at heq
      rw [ih _ hrest heq, addNumbers_default_stringId, htag]
      simp [opTagText, String.append_assoc]

/-- C9. AddString updates the tag by tag = joiner(tag, s) for the
configured joiner; in particular the first AddString on a fresh builder
with a custom joiner j yields j applied to the empty string and s, not s
verbatim; and under the default joiner (plain concatenation, used when no
options are passed) the tag after any successful call sequence is the
initial tag followed by every added string and decimal number form in
call order. -/
theorem addString_tag_joiner_spec :
    (∀ (h : HashBuilder) (key : String) (options : List HashingOption),
      (h.AddString key options).stringId =
        (resolveOptions options).StringIdJoiner h.stringId key) ∧
    (∀ (seed : Nat) (j : String → String → String) (s : String),
      ((NewHashBuilder seed).AddString s [withJoinerOption j]).stringId =
        j "" s) ∧
    (∀ (h : HashBuilder) (ops : List HashOp),
      (∀ op ∈ ops, opUsesDefault op = true) →
      ∀ h2, runHashOps h ops = some h2 →
      h2.stringId = h.stringId ++ tagTrace ops) := by
  refine ⟨?_, ?_, ?_⟩
  · intro h key options
    simp only [HashBuilder.AddString, foldl_addByte_stringId]
  · intro seed j s
    simp only [HashBuilder.AddString, foldl_addByte_stringId, resolveOptions,
      List.foldl_cons, List.foldl_nil, withJoinerOption, NewHashBuilder]
  · intro h ops hdef h2 heq
    exact runHashOps_default_stringId ops h h2 hdef heq

/-- Witness for C9 at concrete inputs: a custom dash joiner on a fresh
builder, and a default-joiner sequence of one string and one number. -/
theorem addString_tag_joiner_spec_witness :
    (((NewHashBuilder 0).AddString "hello"
        [withJoinerOption (fun a b => a ++ "-" ++ b)]).stringId =
      (fun a b => a ++ "-" ++ b) "" "hello") ∧
    (((NewHashBuilder 0).AddString "ab" []).AddNumber 7 []).stringId =
      (NewHashBuilder 0).stringId ++
        tagTrace [HashOp.addString "ab" [], HashOp.addNumber 7 []] :=
  ⟨addString_tag_joiner_spec.2.1 0 (fun a b => a ++ "-" ++ b) "hello",
   addString_tag_joiner_spec.2.2 (NewHashBuilder 0)
     [HashOp.addString "ab" [], HashOp.addNumber 7 []]
     (by decide)
     (((NewHashBuilder 0).AddString "ab" []).AddNumber 7 []) rfl⟩

theorem writeAt_get?_lt (data mem : List Nat) (offset i : Nat)
    (hi : i < offset) : (writeAt mem offset data).get? i = mem.get? i := by
  induction data generalizing mem offset with
  | nil => rfl
  | cons b rest ih =>
    have hstep : writeAt mem offset (b :: rest) =
        writeAt (mem.set offset b) (offset + 1) rest := rfl
    rw [hstep, ih (mem.set offset b) (offset + 1) (by omega)]
    rw [List.get?_eq_getElem?, List.get?_eq_getElem?,
      List.getElem?_set_ne (by omega)]

theorem arenaRun_frame (ops : List ArenaOp) (a : Arena)
    (hinv : a.ArenaResetOffset ≤ a.NextAllocation) :
    (arenaRun a ops).ArenaResetOffset = a.ArenaResetOffset ∧
    a.ArenaResetOffset ≤ (arenaRun a ops).NextAllocation ∧
    ∀ i, i < a.ArenaResetOffset →
      (arenaRun a ops).Memory.get? i = a.Memory.get? i := by
  induction ops generalizing a with
  | nil => exact ⟨rfl, hinv, fun i _ => rfl⟩
  | cons op rest ih =>
    have hrun : arenaRun a (op :: rest) = arenaRun (arenaStep a op) rest := rfl
    cases op with
    | allocate size data =>
      by_cases hc : a.NextAllocation + size > a.Capacity
      · have hstep : arenaStep a (.allocate size data) = a := by
          simp [arenaStep, Arena.Allocate, hc]
        rw [hrun, hstep]
        exact ih a hinv
      · have hstep : arenaStep a (.allocate size data) =
            { a with
                NextAllocation := a.NextAllocation + size,
                Memory := writeAt a.Memory a.NextAllocation (data.take size) } := by
          simp [arenaStep, Arena.Allocate, hc]
        rw [hrun, hstep]
        obtain ⟨e1, e2, e3⟩ := ih
          { a with
              NextAllocation := a.NextAllocation + size,
              Memory := writeAt a.Memory a.NextAllocation (data.take size) }
          (by show a.ArenaResetOffset ≤ a.NextAllocation + size; omega)
        refine ⟨e1, e2, ?_⟩
        intro i hi
        rw [e3 i hi]
        exact writeAt_get?_lt (data.take size) a.Memory a.NextAllocation i
          (by omega)
    | reset =>
      have hstep : arenaStep a .reset =
          { a with NextAllocation := a.ArenaResetOffset } := rfl
      rw [hrun, hstep]
      obtain ⟨e1, e2, e3⟩ := ih { a with NextAllocation := a.ArenaResetOffset }
        (Nat.le_refl _)
      exact ⟨e1, e2, e3⟩

/-- C1. Modelled from the spec (the Arena implementation is not among the
sources; only its tests are): ResetEphemeralMemory sets NextAllocation to
ArenaResetOffset and changes nothing else, in particular no byte of
Memory is cleared, zeroed or scanned; and after
InitializePersistentMemory, any sequence of Allocate calls (with
arbitrary writes through the returned views) and ResetEphemeralMemory
calls leaves every byte below ArenaResetOffset unchanged, and leaves
ArenaResetOffset itself unchanged. -/
theorem arena_reset_persistent_frame :
    (∀ a : Arena, a.ResetEphemeralMemory =
      { a with NextAllocation := a.ArenaResetOffset }) ∧
    (∀ (a : Arena) (ops : List ArenaOp) (i : Nat),
      i < (a.InitializePersistentMemory).ArenaResetOffset →
      (arenaRun a.InitializePersistentMemory ops).Memory.get? i =
        a.Memory.get? i ∧
      (arenaRun a.InitializePersistentMemory ops).ArenaResetOffset =
        (a.InitializePersistentMemory).ArenaResetOffset) := by
  refine ⟨fun a => rfl, ?_⟩
  intro a ops i hi
  obtain ⟨e1, -, e3⟩ :=
    arenaRun_frame ops a.InitializePersistentMemory (Nat.le_refl _)
  exact ⟨e3 i hi, e1⟩

/-- Witness for C1: an arena over 8 bytes of value 7 with 3 bytes made
persistent; an ephemeral allocation writes two 9 bytes and is reset; the
byte below the boundary at offset 1 is unchanged. -/
theorem arena_reset_persistent_frame_witness :
    (arenaRun ((⟨8, 3, 0, List.replicate 8 7⟩ : Arena).InitializePersistentMemory)
        [ArenaOp.allocate 2 [9, 9], ArenaOp.reset]).Memory.get? 1 =
      (⟨8, 3, 0, List.replicate 8 7⟩ : Arena).Memory.get? 1 ∧
    (arenaRun ((⟨8, 3, 0, List.replicate 8 7⟩ : Arena).InitializePersistentMemory)
        [ArenaOp.allocate 2 [9, 9], ArenaOp.reset]).ArenaResetOffset =
      ((⟨8, 3, 0, List.replicate 8 7⟩ : Arena).InitializePersistentMemory).ArenaResetOffset :=
  arena_reset_persistent_frame.2 ⟨8, 3, 0, List.replicate 8 7⟩
    [ArenaOp.allocate 2 [9, 9], ArenaOp.reset] 1 (by decide)

end ArenaMem
